import Mathlib

/-!
Verification of the resilient document-store access layer of the
recruitment-management application (`app/database/mongo.py`,
`app/database/models.py`, `app/services/auth_service.py`).

The embedding models MongoDB collections as lists of documents, a document
being an association list from field names to BSON-like values.  The
stateful connection machinery (`_connect`, `_ensure_connection`, `ping`)
is modelled by explicit state passing over a probe environment indexed by
time.  Python exceptions become an explicit `PyExc` type together with
predicates reflecting the pymongo/bson exception class hierarchy, and
fallible operations return `Except PyExc _`.
-/

namespace RecruitDB

/-- BSON-like field values: the claims only need integers (timestamps,
counters), strings (emails, roles, statuses, ids) and booleans (flags). -/
inductive Value where
  | vInt  : Int → Value
  | vStr  : String → Value
  | vBool : Bool → Value
deriving DecidableEq, Repr

/-- A MongoDB document: an association list from field names to values.
The first binding of a key is its value. -/
abbrev Doc := List (String × Value)

/-- Field lookup (`doc["k"]` / `doc.get("k")`). -/
def getField (d : Doc) (k : String) : Option Value :=
  match d with
  | [] => none
  | (k', v) :: rest => if k' = k then some v else getField rest k

/-- `$set` of a single field: replaces the binding of `k` when present,
appends it otherwise. -/
def setField (d : Doc) (k : String) (v : Value) : Doc :=
  match d with
  | [] => [(k, v)]
  | (k', v') :: rest => if k' = k then (k, v) :: rest else (k', v') :: setField rest k v

/-- `$set` of a partial field set, applied left to right. -/
def setFields (upd : List (String × Value)) (d : Doc) : Doc :=
  upd.foldl (fun acc kv => setField acc kv.1 kv.2) d

/-- A pymongo equality filter `{k1: v1, ..., kn: vn}`: the document matches
when every named field is present with the given value. -/
def docMatches (filt : List (String × Value)) (d : Doc) : Bool :=
  filt.all (fun kv => decide (getField d kv.1 = some kv.2))

/-- Python exceptions raised across the access layer. -/
inductive PyExc where
  | connectionFailure : String → PyExc
  | serverSelectionTimeout : String → PyExc
  | autoReconnect : String → PyExc
  | networkTimeout : String → PyExc
  | operationFailure : String → PyExc
  | duplicateKeyError : String → PyExc
  | valueError : String → PyExc
  | invalidId : String → PyExc
  | validationError : String → PyExc
deriving DecidableEq, Repr

namespace PyExc

/-- `isinstance(e, ConnectionFailure)`: in pymongo, `AutoReconnect`,
`NetworkTimeout` and `ServerSelectionTimeoutError` all derive from
`ConnectionFailure`. -/
def isConnectionFailure : PyExc → Bool
  | connectionFailure _ => true
  | serverSelectionTimeout _ => true
  | autoReconnect _ => true
  | networkTimeout _ => true
  | _ => false

/-- `isinstance(e, OperationFailure)`: `DuplicateKeyError` derives from
`WriteError` which derives from `OperationFailure`. -/
def isOperationFailure : PyExc → Bool
  | operationFailure _ => true
  | duplicateKeyError _ => true
  | _ => false

/-- `isinstance(e, InvalidId)`: `bson.errors.InvalidId` derives from
`BSONError`, which derives from `Exception` — crucially, Python's
`ValueError` is NOT an `InvalidId`, so an `except InvalidId` clause does
not catch a raised `ValueError`. -/
def isInvalidId : PyExc → Bool
  | invalidId _ => true
  | _ => false

/-- `isinstance(e, (AutoReconnect, NetworkTimeout))`: the retry predicate
used by every CRUD primitive's `@retry` decorator. -/
def isCrudTransient : PyExc → Bool
  | autoReconnect _ => true
  | networkTimeout _ => true
  | _ => false

/-- `isinstance(e, PyMongoError)`: all pymongo errors, but not plain
`ValueError`, `bson.errors.InvalidId` or pydantic validation errors. -/
def isPyMongoError : PyExc → Bool
  | connectionFailure _ => true
  | serverSelectionTimeout _ => true
  | autoReconnect _ => true
  | networkTimeout _ => true
  | operationFailure _ => true
  | duplicateKeyError _ => true
  | _ => false

end PyExc

/-! ### Sorting (cursor.sort)

MongoDB compares values of different BSON types by a fixed type order
(missing/null < numbers < strings < booleans); within a type by the usual
order.  A sort specification is a list of `(field, direction)` pairs with
direction `1` (ascending) or `-1` (descending), compared lexicographically.
The server's sort is modelled by a deterministic stable sort; only the
sortedness and permutation properties of the result are used below. -/

/-- BSON type rank used for cross-type comparison. -/
def valRank : Option Value → Nat
  | none => 0
  | some (.vInt _) => 1
  | some (.vStr _) => 2
  | some (.vBool _) => 3

/-- Ascending comparison of (possibly missing) field values. -/
def valLe (a b : Option Value) : Bool :=
  match a, b with
  | some (.vInt x), some (.vInt y) => decide (x ≤ y)
  | some (.vStr x), some (.vStr y) => decide (x ≤ y)
  | some (.vBool x), some (.vBool y) => !x || y
  | _, _ => decide (valRank a ≤ valRank b)

/-- Directed comparison: direction `-1` sorts descending. -/
def dirLe (dir : Int) (a b : Option Value) : Bool :=
  if dir = -1 then valLe b a else valLe a b

/-- Lexicographic document comparison along a sort specification. -/
def sortLe : List (String × Int) → Doc → Doc → Bool
  | [], _, _ => true
  | (k, dir) :: rest, a, b =>
    if getField a k = getField b k then sortLe rest a b
    else dirLe dir (getField a k) (getField b k)

/-- `cursor.sort(s)`: stable sort of the matched documents by `sortLe s`. -/
def sortDocs (s : List (String × Int)) (docs : List Doc) : List Doc :=
  List.insertionSort (fun a b => sortLe s a b = true) docs

/-! ### Generic document operations (`MongoDB` methods, mongo.py)

A collection is a `List Doc`.  A pydantic model class `model` is embedded
as a schema predicate `Doc → Bool`; `model(**doc)` validates the document
and raises a pydantic validation error when it does not conform.  Each
method's `self._ensure_connection()` prologue is treated separately by the
connection model below; the pure query semantics are embedded here. -/

/-- `collection.find_one(filters)`: first matching document, if any. -/
def find_one (coll : List Doc) (filt : List (String × Value)) : Option Doc :=
  coll.find? (docMatches filt)

/-- `MongoDB.get_document`: `doc = find_one(filters); return model(**doc)
if doc else None`.  No match is `None`, not an error; a match is validated
against the model before being returned. -/
def get_document (coll : List Doc) (schema : Doc → Bool)
    (filt : List (String × Value)) : Except PyExc (Option Doc) :=
  match find_one coll filt with
  | none => .ok none
  | some d => if schema d then .ok (some d) else .error (.validationError "model validation failed")

/-- `MongoDB.get_documents`: `find(filter)`, then `if sort: cursor.sort(sort)`,
`if skip: cursor.skip(skip)`, `if limit: cursor.limit(limit)`, then
`[model(**doc) for doc in cursor]`.  Python truthiness: `None` and `[]`
are falsy for `sort`, `0` is falsy for `skip` and for `limit` (and
`cursor.limit(0)` would mean "no limit" in pymongo anyway). -/
def get_documents (coll : List Doc) (schema : Doc → Bool)
    (filt : List (String × Value)) (skip limit : Nat)
    (sort : Option (List (String × Int))) : Except PyExc (List Doc) :=
  let found := coll.filter (docMatches filt)
  let sorted := match sort with
    | none => found
    | some s => if s = [] then found else sortDocs s found
  let skipped := if skip = 0 then sorted else sorted.drop skip
  let limited := if limit = 0 then skipped else skipped.take limit
  if limited.all schema then .ok limited
  else .error (.validationError "model validation failed")

/-- Index of the first document matching the filter. -/
def firstMatchIdx (filt : List (String × Value)) : List Doc → Option Nat
  | [] => none
  | d :: rest =>
    if docMatches filt d then some 0 else (firstMatchIdx filt rest).map (· + 1)

/-- `collection.find_one_and_update(filters, {"$set": upd},
return_document=ReturnDocument.AFTER)`: applies the partial field set to
the first matching document only and returns its post-image. -/
def find_one_and_update (coll : List Doc) (filt : List (String × Value))
    (upd : List (String × Value)) : Option Doc × List Doc :=
  match firstMatchIdx filt coll with
  | none => (none, coll)
  | some i =>
    match coll[i]? with
    | none => (none, coll)
    | some d => (some (setFields upd d), coll.set i (setFields upd d))

/-- `collection.update_many(filters, {"$set": upd})`: applies the partial
field set to every matching document; `modified_count` counts the matching
documents actually changed by the update. -/
def update_many (coll : List Doc) (filt : List (String × Value))
    (upd : List (String × Value)) : Nat × List Doc :=
  ((coll.filter (fun d => docMatches filt d && decide (setFields upd d ≠ d))).length,
   coll.map (fun d => if docMatches filt d then setFields upd d else d))

/-- Result of `MongoDB.update_document`: the updated entity when
`return_updated` was requested, a modified-count otherwise. -/
inductive UpdateResult where
  | updated : Option Doc → UpdateResult
  | count : Nat → UpdateResult
deriving DecidableEq, Repr

/-- `MongoDB.update_document`: `update_op = {"$set": update_data}`; with
`return_updated` it calls `find_one_and_update` returning the post-image
validated by the model (`model(**result) if result else None`), otherwise
`update_many` returning `result.modified_count`. -/
def update_document (coll : List Doc) (schema : Doc → Bool)
    (filt : List (String × Value)) (upd : List (String × Value))
    (return_updated : Bool) : Except PyExc UpdateResult × List Doc :=
  if return_updated then
    match find_one_and_update coll filt upd with
    | (none, coll') => (.ok (.updated none), coll')
    | (some d, coll') =>
      if schema d then (.ok (.updated (some d)), coll')
      else (.error (.validationError "model validation failed"), coll')
  else
    match update_many coll filt upd with
    | (n, coll') => (.ok (.count n), coll')

/-- `collection.insert_one(document)` against a single-field unique index
on `uniqueKey`: raises `DuplicateKeyError` when an existing document holds
the same (present) value for the key, otherwise appends the document. -/
def insert_one_raw (coll : List Doc) (uniqueKey : String) (d : Doc) :
    Except PyExc (List Doc) :=
  if coll.any (fun e => decide (getField e uniqueKey = getField d uniqueKey)
      && (getField d uniqueKey).isSome) then
    .error (.duplicateKeyError "E11000 duplicate key error")
  else
    .ok (coll ++ [d])

/-- `MongoDB.insert_document` body: `insert_one(document.dict(by_alias=True))`;
`except DuplicateKeyError: raise ValueError("Document with this key already
exists")`; other `PyMongoError`s are logged and re-raised. -/
def insert_document (coll : List Doc) (uniqueKey : String) (d : Doc) :
    Except PyExc (List Doc) :=
  match insert_one_raw coll uniqueKey d with
  | .ok coll' => .ok coll'
  | .error e =>
    match e with
    | .duplicateKeyError _ => .error (.valueError "Document with this key already exists")
    | _ => .error e

/-- `collection.delete_many(filters)` (`MongoDB.delete_document`): removes
every matching document and returns the deleted count. -/
def delete_document (coll : List Doc) (filt : List (String × Value)) :
    Nat × List Doc :=
  ((coll.filter (docMatches filt)).length, coll.filter (fun d => !docMatches filt d))

/-! ### The tenacity retry wrapper

`@retry(stop=stop_after_attempt(maxAttempts), wait=wait_exponential(...),
retry=retry_if_exception_type(...))`: re-runs the wrapped callable with the
same input while it raises an exception of a retried type and the attempt
ceiling is not reached.  A non-retried exception propagates immediately;
exhaustion propagates the last exception (tenacity wraps it in
`RetryError`; no theorem below reaches that branch).  The wrapped callable
is a state transformer re-run from the state it left behind. -/

def retryCall {σ α : Type} (retriesOn : PyExc → Bool)
    (f : σ → Except PyExc α × σ) :
    (fuel : Nat) → σ → (used : Nat) → (Except PyExc α × σ) × Nat
  | 0, s, used => ((.error (.operationFailure "RetryError"), s), used)
  | fuel + 1, s, used =>
    match f s with
    | (.ok a, s') => ((.ok a, s'), used + 1)
    | (.error e, s') =>
      if retriesOn e && decide (fuel ≠ 0) then
        retryCall retriesOn f fuel s' (used + 1)
      else
        ((.error e, s'), used + 1)

/-- `stop_after_attempt(3)`: the attempt ceiling shared by the CRUD
primitives, `ping` and `_ensure_indexes`. -/
def CRUD_MAX_ATTEMPTS : Nat := 3

/-- `MongoDB.insert_document` as actually wrapped by its `@retry`
decorator: retried only on `(AutoReconnect, NetworkTimeout)`, up to 3
attempts; returns the result together with the attempts used. -/
def insert_document_retried (coll : List Doc) (uniqueKey : String) (d : Doc) :
    (Except PyExc (List Doc) × List Doc) × Nat :=
  retryCall PyExc.isCrudTransient
    (fun s => match insert_document s uniqueKey d with
      | .ok s' => (.ok s', s')
      | .error e => (.error e, s))
    CRUD_MAX_ATTEMPTS coll 0

/-! ### Connection lifecycle (`_connect`, `_ensure_connection`, `ping`)

The store is modelled by a probe environment `env : Nat → Except PyExc Nat`
indexed by time: `env t` is the outcome of the `t`-th `ping` server command
issued by the process — `.ok v` is a reply `{ok: v}` (`v = 0` standing for
a reply without an `ok` field, matching `.get('ok', 0)`), `.error e` is a
raised exception.  `MongoClient(...)` itself does not touch the network
(pymongo connects lazily), so an attempt's observable action is its probe. -/

/-- `self.client` / `self.db` truthiness plus the `_connection_attempts`
counter. -/
structure ConnState where
  client : Bool
  db : Bool
  connectionAttempts : Nat
deriving DecidableEq, Repr

/-- Outcome of a connection-management call: final state, next probe time,
the `time.sleep` delays performed (in seconds, in order), and the result. -/
structure ConnResult where
  state : ConnState
  time : Nat
  delays : List Nat
  outcome : Except PyExc Unit
deriving Repr

def MAX_RECONNECT_ATTEMPTS : Nat := 5
def RECONNECT_DELAY : Nat := 2

/-- One iteration of the `_connect` loop, `attempt` ranging over
`1..MAX_RECONNECT_ATTEMPTS`: assign a fresh `MongoClient` to `self.client`,
probe; on success set `self.db`, zero `_connection_attempts` and return; on
`(ConnectionFailure, ServerSelectionTimeoutError)` increment the counter,
re-raise at the last attempt, otherwise sleep `RECONNECT_DELAY * attempt`
and continue; any other exception is re-raised at once.  `fuel` only
bounds the recursion (`MAX_RECONNECT_ATTEMPTS` suffices). -/
def connectAux (env : Nat → Except PyExc Nat) :
    (fuel attempt : Nat) → ConnState → Nat → List Nat → ConnResult
  | 0, _, st, t, ds => ⟨st, t, ds, .error (.connectionFailure "out of fuel")⟩
  | fuel + 1, attempt, st, t, ds =>
    let stC : ConnState := { st with client := true }
    match env t with
    | .ok _ => ⟨{ client := true, db := true, connectionAttempts := 0 }, t + 1, ds, .ok ()⟩
    | .error e =>
      if e.isConnectionFailure then
        let st2 : ConnState := { stC with connectionAttempts := stC.connectionAttempts + 1 }
        if attempt = MAX_RECONNECT_ATTEMPTS then
          ⟨st2, t + 1, ds, .error e⟩
        else
          connectAux env fuel (attempt + 1) st2 (t + 1) (ds ++ [RECONNECT_DELAY * attempt])
      else
        ⟨stC, t + 1, ds, .error e⟩

/-- `MongoDB._connect`. -/
def connect (env : Nat → Except PyExc Nat) (st : ConnState) (t : Nat) : ConnResult :=
  connectAux env MAX_RECONNECT_ATTEMPTS 1 st t []

/-- `MongoDB._ensure_connection`: when a client and db handle exist, one
liveness probe; a probe failure of class `(ConnectionFailure,
OperationFailure)` — and a missing handle, which raises
`ConnectionFailure` before any probe — is caught and answered by
`_connect`; any other probe exception propagates. -/
def ensure_connection (env : Nat → Except PyExc Nat) (st : ConnState) (t : Nat) :
    ConnResult :=
  if st.client && st.db then
    match env t with
    | .ok _ => ⟨st, t + 1, [], .ok ()⟩
    | .error e =>
      if e.isConnectionFailure || e.isOperationFailure then connect env st (t + 1)
      else ⟨st, t + 1, [], .error e⟩
  else
    connect env st t

/-- The body of `MongoDB.ping`'s inner `_ping`, before its
`except Exception` clause: `self._ensure_connection()`, then
`self.client.admin.command('ping').get('ok', 0) == 1`. -/
def ping_body (env : Nat → Except PyExc Nat) (st : ConnState) (t : Nat) :
    ConnState × Nat × Except PyExc Bool :=
  let r := ensure_connection env st t
  match r.outcome with
  | .error e => (r.state, r.time, .error e)
  | .ok _ =>
    match env r.time with
    | .error e => (r.state, r.time + 1, .error e)
    | .ok v => (r.state, r.time + 1, .ok (decide (v = 1)))

/-- `MongoDB.ping`: `_ping` catches every exception of its body and
returns `False`.  Its `@retry` wrapper retries only on a raised
`PyMongoError`, and `_ping` never raises, so the wrapper invokes `_ping`
exactly once. -/
def ping (env : Nat → Except PyExc Nat) (st : ConnState) (t : Nat) :
    ConnState × Nat × Except PyExc Bool :=
  match ping_body env st t with
  | (st', t', .error _) => (st', t', .ok false)
  | r => r

/-- `MongoDB.get_document` as invoked at runtime: the
`self._ensure_connection()` prologue followed by the pure query. -/
def get_document_op (env : Nat → Except PyExc Nat) (st : ConnState) (t : Nat)
    (coll : List Doc) (schema : Doc → Bool) (filt : List (String × Value)) :
    ConnResult × Except PyExc (Option Doc) :=
  let r := ensure_connection env st t
  match r.outcome with
  | .error e => (r, .error e)
  | .ok _ => (r, get_document coll schema filt)

/-! ### Index provisioning (`MongoDB._ensure_indexes`) -/

/-- A single-field index: collection, key, direction (1 ascending, -1
descending), uniqueness flag. -/
structure IndexSpec where
  collName : String
  key : String
  direction : Int
  unique : Bool
deriving DecidableEq, Repr

/-- The `create_index` calls issued by `_ensure_indexes`, in source
order. -/
def requiredIndexes : List IndexSpec :=
  [ ⟨"users", "email", 1, true⟩,
    ⟨"users", "role", 1, false⟩,
    ⟨"jobs", "status", 1, false⟩,
    ⟨"jobs", "creator_id", 1, false⟩,
    ⟨"jobs", "department", 1, false⟩,
    ⟨"applications", "job_id", 1, false⟩,
    ⟨"applications", "candidate_id", 1, false⟩,
    ⟨"applications", "status", 1, false⟩,
    ⟨"interviews", "application_id", 1, false⟩,
    ⟨"activity_logs", "timestamp", -1, false⟩ ]

/-- `collection.create_index(...)`: "create if not exists" — a no-op when
an index with the same definition already exists. -/
def create_index (st : List IndexSpec) (ix : IndexSpec) : List IndexSpec :=
  if ix ∈ st then st else st ++ [ix]

/-- The inner `create_indexes()` body: the fixed sequence of
`create_index` requests. -/
def create_indexes (st : List IndexSpec) : List IndexSpec :=
  requiredIndexes.foldl create_index st

/-- `MongoDB._ensure_indexes`: `create_indexes()` wrapped by
`@retry(stop=stop_after_attempt(3), retry=retry_if_exception_type(PyMongoError))`. -/
def ensure_indexes (st : List IndexSpec) :
    (Except PyExc Unit × List IndexSpec) × Nat :=
  retryCall PyExc.isPyMongoError (fun s => (.ok (), create_indexes s))
    CRUD_MAX_ATTEMPTS st 0

/-! ### Identifier validation (`PyObjectId`, models.py) and the domain
repositories that consume it (mongo.py) -/

def isHexDigit (c : Char) : Bool :=
  c.isDigit || (decide ('a' ≤ c) && decide (c ≤ 'f'))
    || (decide ('A' ≤ c) && decide (c ≤ 'F'))

/-- `bson.ObjectId.is_valid` for a string argument: exactly 24 hex
characters. -/
def objectId_is_valid (s : String) : Bool :=
  decide (s.length = 24) && s.toList.all isHexDigit

/-- `PyObjectId.validate`: `if not ObjectId.is_valid(v): raise
ValueError("Invalid ObjectId"); return str(v)`.  Note: it raises a plain
`ValueError`, not `bson.errors.InvalidId`. -/
def pyObjectId_validate (s : String) : Except PyExc String :=
  if objectId_is_valid s then .ok s else .error (.valueError "Invalid ObjectId")

/-- `MongoDB.get_job_by_id`: `get_document("jobs", JobInDB,
_id=PyObjectId.validate(job_id))` under `try ... except InvalidId: return
None`.  The `except` clause matches only exceptions that are instances of
`bson.errors.InvalidId`; any other exception propagates to the caller. -/
def get_job_by_id (jobs : List Doc) (schema : Doc → Bool) (jobId : String) :
    Except PyExc (Option Doc) :=
  match pyObjectId_validate jobId with
  | .ok oid => get_document jobs schema [("_id", .vStr oid)]
  | .error e => if e.isInvalidId then .ok none else .error e

/-- `MongoDB.get_application_by_id`: same shape as `get_job_by_id` over
the `applications` collection. -/
def get_application_by_id (apps : List Doc) (schema : Doc → Bool) (appId : String) :
    Except PyExc (Option Doc) :=
  match pyObjectId_validate appId with
  | .ok oid => get_document apps schema [("_id", .vStr oid)]
  | .error e => if e.isInvalidId then .ok none else .error e

/-- `MongoDB.update_user`: `update_document("users", UserInDB,
{"_id": PyObjectId.validate(user_id)}, update_data, return_updated=True)`
under `try ... except InvalidId: return None`. -/
def update_user (users : List Doc) (schema : Doc → Bool) (userId : String)
    (upd : List (String × Value)) : Except PyExc UpdateResult × List Doc :=
  match pyObjectId_validate userId with
  | .ok oid => update_document users schema [("_id", .vStr oid)] upd true
  | .error e => if e.isInvalidId then (.ok (.updated none), users) else (.error e, users)

/-- Strict "created later than" on documents: both carry an integer
`created_at` and the left one is strictly larger.  A list in strictly
descending creation order is `Pairwise` under this relation. -/
def createdAfterB (a b : Doc) : Bool :=
  match getField a "created_at", getField b "created_at" with
  | some (.vInt x), some (.vInt y) => decide (y < x)
  | _, _ => false

/-- The required index table of the specification (§4.3), used as the
refinement reference against the `create_index` calls the code issues:
users email (unique) and role; jobs status, creator_id, department;
applications job_id, candidate_id, status; interviews application_id;
activity_logs timestamp descending. -/
def specIndexTable : List IndexSpec :=
  [ ⟨"users", "email", 1, true⟩,
    ⟨"users", "role", 1, false⟩,
    ⟨"jobs", "status", 1, false⟩,
    ⟨"jobs", "creator_id", 1, false⟩,
    ⟨"jobs", "department", 1, false⟩,
    ⟨"applications", "job_id", 1, false⟩,
    ⟨"applications", "candidate_id", 1, false⟩,
    ⟨"applications", "status", 1, false⟩,
    ⟨"interviews", "application_id", 1, false⟩,
    ⟨"activity_logs", "timestamp", -1, false⟩ ]

/-! ### Registration (`AuthService.register`, auth_service.py) -/

/-- `re.match(r"[^@]+@[^@]+\.[^@]+", email)` on the character list: a
prefix of the string decomposes as one-or-more non-`@`, `@`, one-or-more
non-`@`, `.`, one-or-more non-`@`.  Since `[^@]+` cannot cross an `@`,
the matched `@` is the first `@` of the string, and the `.` lies strictly
inside the maximal `@`-free segment that follows it. -/
def emailMatch (cs : List Char) : Bool :=
  match cs.findIdx? (· = '@') with
  | none => false
  | some i =>
    if i = 0 then false
    else
      let seg := (cs.drop (i + 1)).takeWhile (· ≠ '@')
      (List.range seg.length).any fun j =>
        decide (1 ≤ j) && decide (j + 1 < seg.length) && decide (seg.getD j ' ' = '.')

/-- `AuthService._validate_email`. -/
def valid_email (s : String) : Bool := emailMatch s.toList

/-- `AuthService.password_min_length`. -/
def password_min_length : Nat := 8

/-- `AuthService._validate_password`: `len(password) >= 8`. -/
def valid_password (p : String) : Bool := decide (password_min_length ≤ p.length)

/-- The role whitelist checked by `register`:
`role not in ['admin', 'recruiter', 'candidate']`. -/
def allowedRoles : List String := ["admin", "recruiter", "candidate"]

/-- `HTTPException(status_code, detail)`. -/
structure HTTPError where
  status_code : Nat
  detail : String
deriving DecidableEq, Repr

/-- pydantic v1 `EmailStr` normalization (email-validator,
`validate_email(value).email`): the domain part — everything after the
`@` — is lowercased, while the local part is preserved exactly as
supplied.  This shallow model ASCII-case-folds the domain (the real
validator additionally IDNA-normalizes internationalized domains). -/
def emailStrNormalize (s : String) : String :=
  let cs := s.toList
  let lp := cs.takeWhile (· ≠ '@')
  String.mk (lp ++ (cs.drop lp.length).map Char.toLower)

/-- pydantic v1 `EmailStr` validation, shallowly modelled: exactly one
`@`, a nonempty local part, and a nonempty domain part containing a
period (email-validator rejects a domain without one by default; it
enforces further domain syntax not needed by the claims). -/
def emailStrValid (s : String) : Bool :=
  let cs := s.toList
  let lp := cs.takeWhile (· ≠ '@')
  let dom := cs.drop (lp.length + 1)
  cs.count '@' == 1 && !lp.isEmpty && !dom.isEmpty && dom.contains '.'

/-- The user document built and inserted by `register` (the `User(...)`
constructor call followed by `.dict(by_alias=True)`): the `email` field
of `UserBase` (models.py) is a pydantic `EmailStr`, so the stored value
is the supplied address with `EmailStr` normalization applied — domain
part lowercased, local part kept as supplied; the password is stored
hashed, `is_active=True`, `login_attempts=0`, and both timestamps are
the insertion time.  An optional name left as `None` is embedded as an
absent binding. -/
def registeredUser (hash : String → String) (now : Int)
    (email pass role : String) (firstName lastName : Option String) : Doc :=
  [("email", .vStr (emailStrNormalize email)), ("password_hash", .vStr (hash pass)),
      ("role", .vStr role)]
    ++ (match firstName with | some f => [("first_name", Value.vStr f)] | none => [])
    ++ (match lastName with | some l => [("last_name", Value.vStr l)] | none => [])
    ++ [("created_at", .vInt now), ("updated_at", .vInt now),
        ("is_active", .vBool true), ("login_attempts", .vInt 0)]

/-- `AuthService.register`: validate the email format (regex), the
password length and the role; reject when `find_one({"email": email})`
already matches the *raw* supplied string; then, inside the `try` block,
`User(...)` runs pydantic validation — an `EmailStr` rejection is caught
by the generic `except Exception` handler (HTTP 500 "Registration
failed") — and `insert_one` runs against the unique `email` index, so a
duplicate of an already-stored (normalized) email raises
`DuplicateKeyError`, a `PyMongoError`, surfaced as HTTP 500 "Database
operation failed"; otherwise the new user document (with the
`EmailStr`-normalized email) is appended. -/
def register (hash : String → String) (now : Int) (users : List Doc)
    (email pass role : String) (firstName lastName : Option String) :
    Except HTTPError (List Doc) :=
  if !valid_email email then .error ⟨400, "Invalid email format"⟩
  else if !valid_password pass then
    .error ⟨400, "Password must be at least 8 characters"⟩
  else if !(allowedRoles.contains role) then .error ⟨400, "Invalid user role"⟩
  else if (users.find? (docMatches [("email", .vStr email)])).isSome then
    .error ⟨400, "Email already registered"⟩
  else if !emailStrValid email then .error ⟨500, "Registration failed"⟩
  else if users.any (fun u =>
      decide (getField u "email" = some (.vStr (emailStrNormalize email)))) then
    .error ⟨500, "Database operation failed"⟩
  else
    .ok (users ++ [registeredUser hash now email pass role firstName lastName])

/-! ## Theorems -/

/-- C2: the spec promises that a malformed identifier is mapped to
`NotFound` (`None`) at the domain-repository boundary — and the dead
`except InvalidId` clauses show the code intends exactly that — but
`PyObjectId.validate` raises `ValueError`, which is not an instance of
`bson.errors.InvalidId`, so the exception escapes `get_job_by_id`,
`get_application_by_id` and `update_user` instead of producing `None`. -/
theorem get_job_by_id_malformed_id_raises (jobs apps users : List Doc)
    (schema : Doc → Bool) (upd : List (String × Value)) :
    get_job_by_id jobs schema "not-a-valid-objectid"
        = .error (.valueError "Invalid ObjectId") ∧
    get_application_by_id apps schema "not-a-valid-objectid"
        = .error (.valueError "Invalid ObjectId") ∧
    update_user users schema "not-a-valid-objectid" upd
        = (.error (.valueError "Invalid ObjectId"), users) ∧
    PyExc.isInvalidId (.valueError "Invalid ObjectId") = false := by
  have hv : objectId_is_valid "not-a-valid-objectid" = false := by decide
  refine ⟨?_, ?_, ?_, rfl⟩ <;>
    simp [get_job_by_id, get_application_by_id, update_user, pyObjectId_validate, hv,
      PyExc.isInvalidId]

/-- C6: `get_one` returns `None`, not an error, when no document matches,
and any returned entity was found by the filter and validated against the
schema before being returned. -/
theorem get_document_optional_validated (coll : List Doc) (schema : Doc → Bool)
    (filt : List (String × Value)) :
    (find_one coll filt = none → get_document coll schema filt = .ok none) ∧
    (∀ d, get_document coll schema filt = .ok (some d) →
      find_one coll filt = some d ∧ schema d = true ∧ docMatches filt d = true) := by
  constructor
  · intro h; simp [get_document, h]
  · intro d h
    unfold get_document at h
    cases hf : find_one coll filt with
    | none => rw [hf] at h; exact absurd h (by simp)
    | some d' =>
      rw [hf] at h
      dsimp only at h
      by_cases hs : schema d' = true
      · rw [if_pos hs] at h
        obtain rfl : d' = d := by simpa using h
        exact ⟨rfl, hs, List.find?_some hf⟩
      · rw [if_neg hs] at h
        exact absurd h (by simp)

/-- C6 witness: an empty collection yields `.ok none`. -/
theorem get_document_optional_validated_witness :
    get_document [] (fun _ => true) [("email", Value.vStr "x")] = .ok none :=
  (get_document_optional_validated [] (fun _ => true) [("email", Value.vStr "x")]).1 rfl

/-- C10: `ping` is total — it always returns a boolean, never an
exception — and it returns `True` exactly when `_ensure_connection`
succeeded and the subsequent probe replied with `ok` equal to `1`; every
failure path yields `False`. -/
theorem ping_total (env : Nat → Except PyExc Nat) (st : ConnState) (t : Nat) :
    (∃ b, (ping env st t).2.2 = .ok b) ∧
    ((ping env st t).2.2 = .ok true ↔
      (ensure_connection env st t).outcome = Except.ok () ∧
        env (ensure_connection env st t).time = Except.ok 1) := by
  unfold ping ping_body
  cases ho : (ensure_connection env st t).outcome with
  | error e => simp [ho]
  | ok u =>
    cases u
    cases hr : env (ensure_connection env st t).time with
    | error e => simp [ho, hr]
    | ok v => simp [ho, hr]

/-- List identity behind the backoff schedule: the sleep of the current
attempt followed by the sleeps of the remaining attempts is the full
schedule. -/
theorem delays_shift (c attempt g : Nat) :
    c * attempt :: (List.range g).map (fun i => c * (attempt + 1 + i)) =
      (List.range (g + 1)).map (fun i => c * (attempt + i)) := by
  rw [List.range_succ_eq_map]
  simp only [List.map_cons, Nat.add_zero, List.map_map]
  congr 1
  apply List.map_congr_left
  intro i _
  simp only [Function.comp_apply]
  congr 1
  omega

/-- The `_connect` loop under an environment that keeps failing with a
connection-class error: the loop runs out its remaining `fuel` attempts
(loop invariant `attempt + fuel = MAX_RECONNECT_ATTEMPTS + 1`), probes
once per attempt, sleeps `RECONNECT_DELAY * attempt` between consecutive
attempts, increments the failure counter each time, and re-raises the
probe error at the last attempt. -/
theorem connectAux_allFail (env : Nat → Except PyExc Nat) (e : PyExc)
    (he : e.isConnectionFailure = true) :
    ∀ fuel attempt st t ds, attempt + fuel = MAX_RECONNECT_ATTEMPTS + 1 → 1 ≤ fuel →
      (∀ i, i < fuel → env (t + i) = .error e) →
      connectAux env fuel attempt st t ds =
        ⟨⟨true, st.db, st.connectionAttempts + fuel⟩, t + fuel,
          ds ++ (List.range (fuel - 1)).map (fun i => RECONNECT_DELAY * (attempt + i)),
          .error e⟩ := by
  intro fuel
  induction fuel with
  | zero => intro attempt st t ds _ hpos _; omega
  | succ f ih =>
    intro attempt st t ds hsum hpos hfail
    have h0 : env t = .error e := by simpa using hfail 0 (by omega)
    rw [connectAux, h0]
    simp only [he, if_true]
    by_cases hlast : attempt = MAX_RECONNECT_ATTEMPTS
    · have hf0 : f = 0 := by
        simp only [MAX_RECONNECT_ATTEMPTS] at hsum hlast; omega
      subst hf0
      rw [if_pos hlast]
      simp
    · rw [if_neg hlast]
      have hfpos : 1 ≤ f := by
        simp only [MAX_RECONNECT_ATTEMPTS] at hsum hlast; omega
      rw [ih (attempt + 1) _ (t + 1) _ (by omega) hfpos ?_]
      · obtain ⟨g, rfl⟩ : ∃ g, f = g + 1 := ⟨f - 1, by omega⟩
        rw [List.append_assoc, List.singleton_append,
          show g + 1 + 1 - 1 = g + 1 from rfl, show g + 1 - 1 = g from rfl,
          delays_shift RECONNECT_DELAY attempt g]
        simp only [ConnResult.mk.injEq, ConnState.mk.injEq]
        refine ⟨⟨trivial, trivial, ?_⟩, ?_, trivial, trivial⟩ <;> omega
      · intro i hi
        have := hfail (i + 1) (by omega)
        rwa [show t + (i + 1) = t + 1 + i by omega] at this

/-- The `_connect` loop when the first successful probe happens `k`
attempts after the current one, before the attempt ceiling: the loop
stops right there, stores a live handle and zeroes the failure
counter. -/
theorem connectAux_firstSuccess (env : Nat → Except PyExc Nat) (e : PyExc)
    (he : e.isConnectionFailure = true) (v : Nat) :
    ∀ k fuel attempt st t ds, k < fuel → attempt + k ≤ MAX_RECONNECT_ATTEMPTS →
      (∀ i, i < k → env (t + i) = .error e) → env (t + k) = .ok v →
      connectAux env fuel attempt st t ds =
        ⟨⟨true, true, 0⟩, t + k + 1,
          ds ++ (List.range k).map (fun i => RECONNECT_DELAY * (attempt + i)), .ok ()⟩ := by
  intro k
  induction k with
  | zero =>
    intro fuel attempt st t ds hk _ _ hsucc
    obtain ⟨f, rfl⟩ : ∃ f, fuel = f + 1 := ⟨fuel - 1, by omega⟩
    rw [Nat.add_zero] at hsucc
    rw [connectAux, hsucc]
    simp
  | succ k ih =>
    intro fuel attempt st t ds hk hle hfail hsucc
    obtain ⟨f, rfl⟩ : ∃ f, fuel = f + 1 := ⟨fuel - 1, by omega⟩
    have h0 : env t = .error e := by simpa using hfail 0 (by omega)
    rw [connectAux, h0]
    simp only [he, if_true]
    have hlast : ¬ attempt = MAX_RECONNECT_ATTEMPTS := by
      simp only [MAX_RECONNECT_ATTEMPTS] at hle ⊢; omega
    rw [if_neg hlast]
    rw [ih f (attempt + 1) _ (t + 1) _ (by omega) (by omega) ?_ ?_]
    · rw [List.append_assoc, List.singleton_append, delays_shift RECONNECT_DELAY attempt k]
      simp only [ConnResult.mk.injEq]
      refine ⟨trivial, by omega, trivial, trivial⟩
    · intro i hi
      have := hfail (i + 1) (by omega)
      rwa [show t + (i + 1) = t + 1 + i by omega] at this
    · rwa [show t + (k + 1) = t + 1 + k by omega] at hsucc

/-- C3: if the store never accepts a connection, `_connect` raises after
exactly `MAX_RECONNECT_ATTEMPTS = 5` probe attempts — not before, not
after — sleeping `RECONNECT_DELAY * attempt` between consecutive attempts
(an increasing schedule, and none after the last attempt); and on the
first successful attempt it stores the client and db handles, resets
`_connection_attempts` to zero and performs no further probe or sleep. -/
theorem connect_bounded_retry (env1 env2 : Nat → Except PyExc Nat) (e : PyExc)
    (st1 st2 : ConnState) (t1 t2 k v : Nat)
    (he : e.isConnectionFailure = true)
    (hfail1 : ∀ i, i < MAX_RECONNECT_ATTEMPTS → env1 (t1 + i) = .error e)
    (hk : k < MAX_RECONNECT_ATTEMPTS)
    (hfail2 : ∀ i, i < k → env2 (t2 + i) = .error e)
    (hsucc : env2 (t2 + k) = .ok v) :
    connect env1 st1 t1 =
      ⟨⟨true, st1.db, st1.connectionAttempts + MAX_RECONNECT_ATTEMPTS⟩,
        t1 + MAX_RECONNECT_ATTEMPTS,
        (List.range (MAX_RECONNECT_ATTEMPTS - 1)).map (fun i => RECONNECT_DELAY * (i + 1)),
        .error e⟩ ∧
    connect env2 st2 t2 =
      ⟨⟨true, true, 0⟩, t2 + k + 1,
        (List.range k).map (fun i => RECONNECT_DELAY * (i + 1)), .ok ()⟩ := by
  have hmap : ∀ n, (List.range n).map (fun i => RECONNECT_DELAY * (1 + i)) =
      (List.range n).map (fun i => RECONNECT_DELAY * (i + 1)) := by
    intro n
    apply List.map_congr_left
    intro i _
    rw [Nat.add_comm]
  constructor
  · rw [connect, connectAux_allFail env1 e he MAX_RECONNECT_ATTEMPTS 1 st1 t1 []
      (by simp [MAX_RECONNECT_ATTEMPTS]) (by simp [MAX_RECONNECT_ATTEMPTS]) hfail1]
    rw [List.nil_append, hmap]
  · rw [connect, connectAux_firstSuccess env2 e he v k MAX_RECONNECT_ATTEMPTS 1 st2 t2 []
      hk (by simp only [MAX_RECONNECT_ATTEMPTS] at hk ⊢; omega) hfail2 hsucc]
    rw [List.nil_append, hmap]

/-- C3 witness: a store that never answers exhausts all five attempts
with delays 2, 4, 6, 8; a store that answers at the third attempt yields
a live zeroed state after two sleeps. -/
theorem connect_bounded_retry_witness :
    connect (fun _ => .error (.connectionFailure "refused")) ⟨false, false, 0⟩ 0 =
      ⟨⟨true, false, 5⟩, 5, [2, 4, 6, 8], .error (.connectionFailure "refused")⟩ ∧
    connect (fun t => if t < 2 then .error (.connectionFailure "refused") else .ok 1)
        ⟨false, false, 7⟩ 0 =
      ⟨⟨true, true, 0⟩, 3, [2, 4], .ok ()⟩ := by
  have h := connect_bounded_retry (fun _ => .error (.connectionFailure "refused"))
    (fun t => if t < 2 then .error (.connectionFailure "refused") else .ok 1)
    (.connectionFailure "refused") ⟨false, false, 0⟩ ⟨false, false, 7⟩ 0 0 2 1
    rfl (fun _ _ => rfl) (by decide)
    (fun i hi => by interval_cases i <;> rfl) rfl
  refine ⟨?_, ?_⟩
  · have h1 := h.1
    simpa [MAX_RECONNECT_ATTEMPTS, RECONNECT_DELAY, List.range_succ] using h1
  · have h2 := h.2
    simpa [RECONNECT_DELAY, List.range_succ] using h2

/-- C7: with a live handle, if the liveness probes fail `N` consecutive
times (`N` below the attempt ceiling) and then succeed,
`_ensure_connection` recovers transparently — its outcome is success —
and a CRUD operation issued in that window (here `get_document`) returns
exactly the correct query result, with no error surfaced to the
caller. -/
theorem ensure_connection_transparent (env : Nat → Except PyExc Nat)
    (st : ConnState) (t N v : Nat) (e : PyExc)
    (coll : List Doc) (schema : Doc → Bool) (filt : List (String × Value))
    (hlive : st.client = true) (hdb : st.db = true)
    (hN : N < MAX_RECONNECT_ATTEMPTS)
    (he : e.isConnectionFailure = true)
    (hfail : ∀ i, i < N → env (t + i) = .error e)
    (hsucc : env (t + N) = .ok v)
    (hschema : ∀ d ∈ coll, schema d = true) :
    (ensure_connection env st t).outcome = .ok () ∧
    (get_document_op env st t coll schema filt).2 = get_document coll schema filt ∧
    ∃ r, get_document coll schema filt = .ok r := by
  have houtcome : (ensure_connection env st t).outcome = .ok () := by
    rw [ensure_connection]
    simp only [hlive, hdb, Bool.and_self, if_true]
    cases N with
    | zero =>
      rw [Nat.add_zero] at hsucc
      rw [hsucc]
    | succ n =>
      have h0 : env t = .error e := by simpa using hfail 0 (by omega)
      rw [h0]
      simp only [he, Bool.true_or, if_true]
      rw [connect, connectAux_firstSuccess env e he v n MAX_RECONNECT_ATTEMPTS 1 st (t + 1) []
        (by omega) (by simp only [MAX_RECONNECT_ATTEMPTS] at hN ⊢; omega) ?_ ?_]
      · intro i hi
        have := hfail (i + 1) (by omega)
        rwa [show t + (i + 1) = t + 1 + i by omega] at this
      · rwa [show t + (n + 1) = t + 1 + n by omega] at hsucc
  refine ⟨houtcome, ?_, ?_⟩
  · rw [get_document_op]
    rw [houtcome]
  · cases hf : find_one coll filt with
    | none => exact ⟨none, by simp [get_document, hf]⟩
    | some d =>
      have hmem : d ∈ coll := List.mem_of_find?_eq_some hf
      exact ⟨some d, by simp [get_document, hf, hschema d hmem]⟩

/-- C7 witness: probes fail at times 0 and 1 and succeed at time 2; a
`get_document` issued in that window returns its correct result with no
error. -/
theorem ensure_connection_transparent_witness :
    (ensure_connection (fun t => if t < 2 then .error (.connectionFailure "blip") else .ok 1)
        ⟨true, true, 0⟩ 0).outcome = .ok () ∧
    (get_document_op (fun t => if t < 2 then .error (.connectionFailure "blip") else .ok 1)
        ⟨true, true, 0⟩ 0 [[("_id", Value.vStr "a"), ("status", Value.vStr "pending")]]
        (fun _ => true) [("status", Value.vStr "pending")]).2 =
      get_document [[("_id", Value.vStr "a"), ("status", Value.vStr "pending")]]
        (fun _ => true) [("status", Value.vStr "pending")] ∧
    ∃ r, get_document [[("_id", Value.vStr "a"), ("status", Value.vStr "pending")]]
        (fun _ => true) [("status", Value.vStr "pending")] = .ok r :=
  ensure_connection_transparent _ _ 0 2 1 (.connectionFailure "blip") _ _ _
    rfl rfl (by decide) rfl (fun i hi => by interval_cases i <;> rfl) rfl
    (fun _ _ => rfl)

/-- C4: a duplicate-key insert fails with the distinct conflict error
(`ValueError("Document with this key already exists")` wrapping
`DuplicateKeyError`), the CRUD retry predicate does not retry it (it is
used once, surfacing immediately), and the collection still holds exactly
one document with that email. -/
theorem insert_duplicate_conflict (coll : List Doc) (d1 d2 : Doc) (em : String)
    (h1 : getField d1 "email" = some (.vStr em))
    (h2 : getField d2 "email" = some (.vStr em))
    (hfree : ∀ c ∈ coll, getField c "email" ≠ some (.vStr em)) :
    insert_document coll "email" d1 = .ok (coll ++ [d1]) ∧
    insert_document_retried (coll ++ [d1]) "email" d2 =
      ((.error (.valueError "Document with this key already exists"), coll ++ [d1]), 1) ∧
    PyExc.isCrudTransient (.valueError "Document with this key already exists") = false ∧
    ((coll ++ [d1]).filter
        (fun c => decide (getField c "email" = some (.vStr em)))).length = 1 := by
  have hany : (coll.any fun e =>
      decide (getField e "email" = getField d1 "email") && (getField d1 "email").isSome)
        = false := by
    rw [List.any_eq_false]
    intro c hc
    rw [h1]
    simp [hfree c hc]
  have hdup : ((coll ++ [d1]).any fun e =>
      decide (getField e "email" = getField d2 "email") && (getField d2 "email").isSome)
        = true := by
    rw [List.any_eq_true]
    exact ⟨d1, by simp, by rw [h1, h2]; simp⟩
  refine ⟨?_, ?_, rfl, ?_⟩
  · rw [insert_document, insert_one_raw, hany]
    simp
  · rw [insert_document_retried, CRUD_MAX_ATTEMPTS, retryCall]
    rw [insert_document, insert_one_raw, hdup]
    simp [PyExc.isCrudTransient]
  · rw [List.filter_append]
    have hnil : coll.filter (fun c => decide (getField c "email" = some (.vStr em))) = [] := by
      rw [List.filter_eq_nil_iff]
      intro c hc
      simp [hfree c hc]
    rw [hnil]
    simp [List.filter, h1]

/-- C4 witness: inserting the same email twice into an initially empty
collection. -/
theorem insert_duplicate_conflict_witness :
    insert_document [] "email" [("email", Value.vStr "x@y.z")]
        = .ok [[("email", Value.vStr "x@y.z")]] ∧
    insert_document_retried [[("email", Value.vStr "x@y.z")]] "email"
        [("email", Value.vStr "x@y.z"), ("role", Value.vStr "admin")] =
      ((.error (.valueError "Document with this key already exists"),
        [[("email", Value.vStr "x@y.z")]]), 1) ∧
    PyExc.isCrudTransient (.valueError "Document with this key already exists") = false ∧
    ([[("email", Value.vStr "x@y.z")]].filter
        (fun c => decide (getField c "email" = some (.vStr "x@y.z")))).length = 1 :=
  insert_duplicate_conflict [] [("email", Value.vStr "x@y.z")]
    [("email", Value.vStr "x@y.z"), ("role", Value.vStr "admin")] "x@y.z"
    rfl rfl (fun c hc => absurd hc (List.not_mem_nil c))

/-- Everything already present survives a `create_index` request. -/
theorem mem_create_index_of_mem (st : List IndexSpec) (ix a : IndexSpec)
    (h : a ∈ st) : a ∈ create_index st ix := by
  rw [create_index]
  split
  · exact h
  · exact List.mem_append_left _ h

/-- A requested index is present after its `create_index` request. -/
theorem mem_create_index_self (st : List IndexSpec) (ix : IndexSpec) :
    ix ∈ create_index st ix := by
  rw [create_index]
  split
  · assumption
  · exact List.mem_append_right _ (List.mem_singleton.2 rfl)

/-- Everything already present survives a sequence of `create_index`
requests. -/
theorem mem_foldl_create_index_of_mem (l : List IndexSpec) :
    ∀ st a, a ∈ st → a ∈ l.foldl create_index st := by
  induction l with
  | nil => intro st a h; exact h
  | cons ix rest ih =>
    intro st a h
    exact ih _ a (mem_create_index_of_mem st ix a h)

/-- Every requested index is present after the sequence of requests. -/
theorem mem_foldl_create_index_of_mem_list (l : List IndexSpec) :
    ∀ st a, a ∈ l → a ∈ l.foldl create_index st := by
  induction l with
  | nil => intro st a h; exact absurd h (List.not_mem_nil a)
  | cons ix rest ih =>
    intro st a h
    rcases List.mem_cons.1 h with rfl | h
    · exact mem_foldl_create_index_of_mem rest _ a (mem_create_index_self st a)
    · exact ih _ a h

/-- "Create if not exists": a request sequence whose indexes all already
exist is a no-op. -/
theorem foldl_create_index_noop (l : List IndexSpec) :
    ∀ st, (∀ a ∈ l, a ∈ st) → l.foldl create_index st = st := by
  induction l with
  | nil => intro st _; rfl
  | cons ix rest ih =>
    intro st h
    have hmem : ix ∈ st := h ix (List.mem_cons_self ix rest)
    have : create_index st ix = st := by rw [create_index, if_pos hmem]
    rw [List.foldl_cons, this]
    exact ih st (fun a ha => h a (List.mem_cons_of_mem ix ha))

/-- `create_index` never introduces a duplicate index. -/
theorem nodup_create_index (st : List IndexSpec) (ix : IndexSpec)
    (h : st.Nodup) : (create_index st ix).Nodup := by
  rw [create_index]
  split
  · exact h
  · next hmem =>
    exact List.Nodup.append h (List.nodup_singleton ix) (List.disjoint_singleton.2 hmem)

/-- A sequence of `create_index` requests never introduces a duplicate
index. -/
theorem nodup_foldl_create_index (l : List IndexSpec) :
    ∀ st, st.Nodup → (l.foldl create_index st).Nodup := by
  induction l with
  | nil => intro st h; exact h
  | cons ix rest ih =>
    intro st h
    exact ih _ (nodup_create_index st ix h)

/-- C8: at startup `_ensure_indexes` requests exactly the specification's
index table, wrapped by the retry policy with a fixed ceiling of 3
attempts; provisioning succeeds on the first attempt with no error, a
second invocation changes nothing and reports no error, and no duplicate
indexes are ever produced. -/
theorem ensure_indexes_idempotent (st : List IndexSpec) (hnd : st.Nodup) :
    create_indexes [] = specIndexTable ∧
    CRUD_MAX_ATTEMPTS = 3 ∧
    ensure_indexes st = ((.ok (), create_indexes st), 1) ∧
    ensure_indexes (create_indexes st) = ((.ok (), create_indexes st), 1) ∧
    (create_indexes st).Nodup := by
  have hidem : create_indexes (create_indexes st) = create_indexes st := by
    rw [create_indexes, foldl_create_index_noop]
    intro a ha
    exact mem_foldl_create_index_of_mem_list requiredIndexes st a ha
  refine ⟨by decide, rfl, rfl, ?_, ?_⟩
  · have h4 : ensure_indexes (create_indexes st)
        = ((Except.ok (), create_indexes (create_indexes st)), 1) := rfl
    rw [h4, hidem]
  · exact nodup_foldl_create_index requiredIndexes st hnd

/-- C8 witness: provisioning into an empty index state. -/
theorem ensure_indexes_idempotent_witness :
    create_indexes [] = specIndexTable ∧
    CRUD_MAX_ATTEMPTS = 3 ∧
    ensure_indexes [] = ((Except.ok (), create_indexes []), 1) ∧
    ensure_indexes (create_indexes []) = ((Except.ok (), create_indexes []), 1) ∧
    (create_indexes ([] : List IndexSpec)).Nodup :=
  ensure_indexes_idempotent [] List.nodup_nil

/-- `$set` of a field makes that field hold the new value. -/
theorem getField_setField_same (d : Doc) (k : String) (v : Value) :
    getField (setField d k v) k = some v := by
  induction d with
  | nil => simp [setField, getField]
  | cons kv rest ih =>
    obtain ⟨k', v'⟩ := kv
    by_cases h : k' = k
    · subst h
      simp [setField, getField]
    · simp [setField, getField, h, ih]

/-- `$set` of a field leaves every other field unchanged. -/
theorem getField_setField_other (d : Doc) (k : String) (v : Value) (k' : String)
    (h : k' ≠ k) : getField (setField d k v) k' = getField d k' := by
  induction d with
  | nil => simp [setField, getField, Ne.symm h]
  | cons kv rest ih =>
    obtain ⟨k0, v0⟩ := kv
    by_cases h0 : k0 = k
    · subst h0
      simp [setField, getField, Ne.symm h]
    · simp [setField, getField, h0, ih]

/-- A partial field set leaves fields it does not name unchanged. -/
theorem getField_setFields_not_mem (upd : List (String × Value)) :
    ∀ d k, k ∉ upd.map Prod.fst → getField (setFields upd d) k = getField d k := by
  induction upd with
  | nil => intro d k _; rfl
  | cons kv rest ih =>
    intro d k hk
    rw [List.map_cons, List.mem_cons] at hk
    push_neg at hk
    rw [setFields, List.foldl_cons]
    rw [show List.foldl (fun acc kv => setField acc kv.1 kv.2) (setField d kv.1 kv.2) rest
      = setFields rest (setField d kv.1 kv.2) from rfl]
    rw [ih _ k hk.2]
    exact getField_setField_other d kv.1 kv.2 k hk.1

/-- A partial field set (with no repeated field name) sets every named
field to its given value. -/
theorem getField_setFields_mem (upd : List (String × Value)) :
    ∀ d k v, (upd.map Prod.fst).Nodup → (k, v) ∈ upd →
      getField (setFields upd d) k = some v := by
  induction upd with
  | nil => intro d k v _ h; exact absurd h (List.not_mem_nil _)
  | cons kv rest ih =>
    obtain ⟨k0, v0⟩ := kv
    intro d k v hnd hmem
    rw [List.map_cons, List.nodup_cons] at hnd
    rw [setFields, List.foldl_cons]
    rw [show List.foldl (fun acc kv => setField acc kv.1 kv.2) (setField d k0 v0) rest
      = setFields rest (setField d k0 v0) from rfl]
    rcases List.mem_cons.1 hmem with heq | hmem'
    · have hkv : k = k0 ∧ v = v0 := by simpa using heq
      obtain ⟨rfl, rfl⟩ := hkv
      have hk : k ∉ rest.map Prod.fst := by simpa using hnd.1
      rw [getField_setFields_not_mem rest _ _ hk]
      exact getField_setField_same d k v
    · exact ih _ k v hnd.2 hmem'

/-- `firstMatchIdx` really is the index of the first matching document:
the document at the index matches, and every earlier one does not. -/
theorem firstMatchIdx_spec (filt : List (String × Value)) :
    ∀ (coll : List Doc) (i : Nat), firstMatchIdx filt coll = some i →
      ∃ d, coll[i]? = some d ∧ docMatches filt d = true ∧
        ∀ j, j < i → ∀ b, coll[j]? = some b → docMatches filt b = false := by
  intro coll
  induction coll with
  | nil => intro i h; exact absurd h (by simp [firstMatchIdx])
  | cons d rest ih =>
    intro i h
    rw [firstMatchIdx] at h
    by_cases hm : docMatches filt d = true
    · rw [if_pos hm] at h
      obtain rfl : (0 : Nat) = i := by simpa using h
      exact ⟨d, by simp, hm, fun j hj => absurd hj (by omega)⟩
    · rw [if_neg hm] at h
      obtain ⟨i', hi', rfl⟩ := Option.map_eq_some'.1 h
      obtain ⟨d', hd', hm', hlt'⟩ := ih i' hi'
      refine ⟨d', by simpa using hd', hm', ?_⟩
      intro j hj b hb
      cases j with
      | zero =>
        obtain rfl : d = b := by simpa using hb
        exact Bool.not_eq_true _ ▸ (by simpa using hm)
      | succ j' =>
        exact hlt' j' (by omega) b (by simpa using hb)

/-- C5: with `return_updated`, `update_document` applies the partial
field set to exactly the first matching document — the named fields get
their new values, all other fields of that document keep theirs, every
other document is untouched — and returns the post-image; without it, the
bulk form applies the set to the matching documents and returns a
modified-count. -/
theorem update_document_semantics (coll : List Doc) (schema : Doc → Bool)
    (filt upd : List (String × Value)) :
    (update_document coll schema filt upd false =
       (.ok (.count (update_many coll filt upd).1), (update_many coll filt upd).2) ∧
     (update_many coll filt upd).1 =
       (coll.filter (fun d => docMatches filt d && decide (setFields upd d ≠ d))).length ∧
     (∀ (j : Nat) (d : Doc), coll[j]? = some d → docMatches filt d = false →
       (update_many coll filt upd).2[j]? = some d)) ∧
    (firstMatchIdx filt coll = none →
       update_document coll schema filt upd true = (.ok (.updated none), coll)) ∧
    (∀ (i : Nat) (d : Doc), firstMatchIdx filt coll = some i → coll[i]? = some d →
      schema (setFields upd d) = true →
      update_document coll schema filt upd true =
        (.ok (.updated (some (setFields upd d))), coll.set i (setFields upd d)) ∧
      docMatches filt d = true ∧
      (∀ j, j < i → ∀ b, coll[j]? = some b → docMatches filt b = false) ∧
      ((upd.map Prod.fst).Nodup → ∀ kv ∈ upd, getField (setFields upd d) kv.1 = some kv.2) ∧
      (∀ k, k ∉ upd.map Prod.fst → getField (setFields upd d) k = getField d k) ∧
      (∀ j, j ≠ i → (coll.set i (setFields upd d))[j]? = coll[j]?)) := by
  refine ⟨⟨rfl, rfl, ?_⟩, ?_, ?_⟩
  · intro j d hj hnm
    rw [update_many]
    simp only [List.getElem?_map, hj, Option.map_some']
    rw [hnm]
    simp
  · intro h
    simp [update_document, find_one_and_update, h]
  · intro i d hi hd hschema
    obtain ⟨d0, hd0, hm0, hlt0⟩ := firstMatchIdx_spec filt coll i hi
    have hdd : d = d0 := by rw [hd0] at hd; exact (Option.some.inj hd).symm
    subst hdd
    have hfou : find_one_and_update coll filt upd =
        (some (setFields upd d), coll.set i (setFields upd d)) := by
      rw [find_one_and_update, hi]
      dsimp only
      rw [hd0]
    refine ⟨?_, hm0, hlt0, ?_, ?_, ?_⟩
    · simp [update_document, hfou, hschema]
    · intro hnd kv hkv
      exact getField_setFields_mem upd d kv.1 kv.2 hnd (by simpa using hkv)
    · intro k hk
      exact getField_setFields_not_mem upd d k hk
    · intro j hj
      exact List.getElem?_set_ne (Ne.symm hj)

/-- C5 witness: updating `{status: "approved"}` on the first pending
document sets only that field, keeps the rest, and returns the
post-image. -/
theorem update_document_semantics_witness :
    update_document [[("status", Value.vStr "pending"), ("x", Value.vInt 9)]]
        (fun _ => true) [("status", Value.vStr "pending")]
        [("status", Value.vStr "approved")] true =
      (.ok (.updated (some [("status", Value.vStr "approved"), ("x", Value.vInt 9)])),
        [[("status", Value.vStr "approved"), ("x", Value.vInt 9)]]) :=
  ((update_document_semantics [[("status", Value.vStr "pending"), ("x", Value.vInt 9)]]
    (fun _ => true) [("status", Value.vStr "pending")]
    [("status", Value.vStr "approved")]).2.2 0 _ rfl rfl rfl).1

/-- C9 counterexample: the only normalization on the registration path
is pydantic `EmailStr`'s, which lowercases the domain part but preserves
the local part, so a mixed-case local part is stored mixed-case: the
stored email for `Alice@example.com` is `Alice@example.com`, which still
contains an uppercase letter — not lowercase-normalized. -/
theorem register_no_lowercase_normalization :
    register (fun s => s) 0 [] "Alice@example.com" "Password123" "candidate" none none =
      .ok [registeredUser (fun s => s) 0 "Alice@example.com" "Password123" "candidate"
        none none] ∧
    getField (registeredUser (fun s => s) 0 "Alice@example.com" "Password123" "candidate"
        none none) "email" = some (.vStr "Alice@example.com") ∧
    emailStrNormalize "Alice@example.com" = "Alice@example.com" ∧
    ("Alice@example.com".data.any fun c => c.isUpper) = true ∧
    "Alice@example.com" ≠ "alice@example.com" :=
  ⟨rfl, rfl, rfl, by decide, by decide⟩

/-- C9 (amended): every user stored by `register` carries the supplied
email with `EmailStr` normalization applied — the domain part lowercased,
the local part preserved as supplied (full lowercase normalization does
not hold, see the counterexample) — a role from {candidate, recruiter,
admin}, and the store is extended preserving exact-string email
uniqueness (the duplicate check against the raw string plus the unique
index at insert). -/
theorem register_invariants (hash : String → String) (now : Int)
    (users users' : List Doc) (email pass role : String)
    (firstName lastName : Option String)
    (h : register hash now users email pass role firstName lastName = .ok users') :
    users' = users ++ [registeredUser hash now email pass role firstName lastName] ∧
    getField (registeredUser hash now email pass role firstName lastName) "email"
      = some (.vStr (emailStrNormalize email)) ∧
    getField (registeredUser hash now email pass role firstName lastName) "role"
      = some (.vStr role) ∧
    (role = "admin" ∨ role = "recruiter" ∨ role = "candidate") ∧
    (∀ u ∈ users, getField u "email" ≠ some (.vStr email)) ∧
    (∀ u ∈ users, getField u "email" ≠ some (.vStr (emailStrNormalize email))) ∧
    (users.Pairwise (fun a b => getField a "email" ≠ getField b "email") →
      users'.Pairwise (fun a b => getField a "email" ≠ getField b "email")) := by
  rw [register] at h
  split_ifs at h with h1 h2 h3 h4 h5 h6
  obtain rfl : users ++ [registeredUser hash now email pass role firstName lastName]
      = users' := Except.ok.inj h
  have hrole : role = "admin" ∨ role = "recruiter" ∨ role = "candidate" := by
    simp only [Bool.not_eq_true', Bool.not_eq_false] at h3
    simpa [allowedRoles] using h3
  have hnewEmail : getField (registeredUser hash now email pass role firstName lastName)
      "email" = some (.vStr (emailStrNormalize email)) := rfl
  have hfreeRaw : ∀ u ∈ users, getField u "email" ≠ some (.vStr email) := by
    intro u hu
    have hnone : users.find? (docMatches [("email", Value.vStr email)]) = none := by
      cases hfind : users.find? (docMatches [("email", Value.vStr email)]) with
      | none => rfl
      | some w => rw [hfind] at h4; simp at h4
    have := List.find?_eq_none.1 hnone u hu
    simpa [docMatches] using this
  have hfree : ∀ u ∈ users, getField u "email"
      ≠ some (.vStr (emailStrNormalize email)) := by
    intro u hu
    have h6' : (users.any fun u =>
        decide (getField u "email" = some (.vStr (emailStrNormalize email)))) = false := by
      simpa using h6
    have := List.any_eq_false.1 h6' u hu
    simpa using this
  refine ⟨rfl, hnewEmail, rfl, hrole, hfreeRaw, hfree, ?_⟩
  intro hpw
  rw [List.pairwise_append]
  refine ⟨hpw, List.pairwise_singleton _ _, ?_⟩
  intro a ha b hb
  obtain rfl : b = registeredUser hash now email pass role firstName lastName := by
    simpa using hb
  rw [hnewEmail]
  exact fun hc => hfree a ha hc

/-- C9 witness: a registration into an empty store. -/
theorem register_invariants_witness :
    [registeredUser (fun s => s) 0 "bob@example.com" "Password123" "candidate" none none] =
      [] ++ [registeredUser (fun s => s) 0 "bob@example.com" "Password123" "candidate"
        none none] ∧
    getField (registeredUser (fun s => s) 0 "bob@example.com" "Password123" "candidate"
        none none) "email" = some (.vStr (emailStrNormalize "bob@example.com")) ∧
    getField (registeredUser (fun s => s) 0 "bob@example.com" "Password123" "candidate"
        none none) "role" = some (.vStr "candidate") ∧
    ("candidate" = "admin" ∨ "candidate" = "recruiter" ∨ "candidate" = "candidate") ∧
    (∀ u ∈ ([] : List Doc), getField u "email" ≠ some (.vStr "bob@example.com")) ∧
    (∀ u ∈ ([] : List Doc), getField u "email"
      ≠ some (.vStr (emailStrNormalize "bob@example.com"))) ∧
    (([] : List Doc).Pairwise (fun a b => getField a "email" ≠ getField b "email") →
      ([registeredUser (fun s => s) 0 "bob@example.com" "Password123" "candidate"
        none none]).Pairwise (fun a b => getField a "email" ≠ getField b "email")) := by
  have h := register_invariants (fun s => s) 0 []
    [registeredUser (fun s => s) 0 "bob@example.com" "Password123" "candidate" none none]
    "bob@example.com" "Password123" "candidate" none none rfl
  simpa using h

/-- The BSON value comparison is total. -/
theorem valLe_total (a b : Option Value) : valLe a b = true ∨ valLe b a = true := by
  rcases a with _ | (xa | xa | xa) <;> rcases b with _ | (xb | xb | xb) <;>
    simp [valLe, valRank] <;>
    first
    | omega
    | exact le_total _ _
    | (cases xa <;> cases xb <;> simp)

/-- The BSON value comparison is antisymmetric. -/
theorem valLe_antisymm (a b : Option Value) :
    valLe a b = true → valLe b a = true → a = b := by
  rcases a with _ | (xa | xa | xa) <;> rcases b with _ | (xb | xb | xb) <;>
    simp [valLe, valRank] <;>
    first
    | omega
    | exact fun h1 h2 => le_antisymm h1 h2
    | exact fun h1 h2 => String.ext (le_antisymm h1 h2)
    | (cases xa <;> cases xb <;> simp)

/-- The BSON value comparison is transitive. -/
theorem valLe_trans (a b c : Option Value) :
    valLe a b = true → valLe b c = true → valLe a c = true := by
  rcases a with _ | (xa | xa | xa) <;> rcases b with _ | (xb | xb | xb) <;>
    rcases c with _ | (xc | xc | xc) <;>
    simp [valLe, valRank] <;>
    first
    | omega
    | exact fun h1 h2 => le_trans h1 h2
    | (cases xa <;> cases xb <;> cases xc <;> simp)

/-- The lexicographic document comparison is total. -/
theorem sortLe_total (s : List (String × Int)) :
    ∀ a b, sortLe s a b = true ∨ sortLe s b a = true := by
  induction s with
  | nil => intro a b; left; rfl
  | cons kd rest ih =>
    obtain ⟨k, dir⟩ := kd
    intro a b
    rw [sortLe, sortLe]
    by_cases h : getField a k = getField b k
    · rw [if_pos h, if_pos h.symm]
      exact ih a b
    · rw [if_neg h, if_neg (fun hh => h hh.symm)]
      rw [dirLe, dirLe]
      split_ifs
      · exact valLe_total _ _
      · exact valLe_total _ _

/-- The lexicographic document comparison is transitive. -/
theorem sortLe_trans (s : List (String × Int)) :
    ∀ a b c, sortLe s a b = true → sortLe s b c = true → sortLe s a c = true := by
  induction s with
  | nil => intro a b c _ _; rfl
  | cons kd rest ih =>
    obtain ⟨k, dir⟩ := kd
    intro a b c hab hbc
    rw [sortLe] at hab hbc ⊢
    by_cases hab' : getField a k = getField b k
    · by_cases hbc' : getField b k = getField c k
      · rw [if_pos hab'] at hab
        rw [if_pos hbc'] at hbc
        rw [if_pos (hab'.trans hbc')]
        exact ih a b c hab hbc
      · rw [if_pos hab'] at hab
        rw [if_neg hbc'] at hbc
        have hac' : getField a k ≠ getField c k := by rw [hab']; exact hbc'
        rw [if_neg hac', hab']
        exact hbc
    · by_cases hbc' : getField b k = getField c k
      · rw [if_neg hab'] at hab
        have hac' : getField a k ≠ getField c k := by rw [← hbc']; exact hab'
        rw [if_neg hac', ← hbc']
        exact hab
      · rw [if_neg hab'] at hab
        rw [if_neg hbc'] at hbc
        by_cases hac' : getField a k = getField c k
        · exfalso
          rw [dirLe] at hab hbc
          split_ifs at hab hbc with hdir
          · rw [← hac'] at hbc
            exact hab' (valLe_antisymm _ _ hbc hab)
          · rw [hac'] at hab
            exact hbc' (valLe_antisymm _ _ hbc hab)
        · rw [if_neg hac']
          rw [dirLe] at hab hbc ⊢
          split_ifs at hab hbc ⊢ with hdir
          · exact valLe_trans _ _ _ hbc hab
          · exact valLe_trans _ _ _ hab hbc

/-- `sortDocs` produces a list sorted by the document comparison. -/
theorem sorted_sortDocs (s : List (String × Int)) (l : List Doc) :
    List.Sorted (fun a b => sortLe s a b = true) (sortDocs s l) := by
  letI : IsTotal Doc (fun a b => sortLe s a b = true) := ⟨sortLe_total s⟩
  letI : IsTrans Doc (fun a b => sortLe s a b = true) := ⟨sortLe_trans s⟩
  exact List.sorted_insertionSort _ l

/-- `sortDocs` permutes its input. -/
theorem perm_sortDocs (s : List (String × Int)) (l : List Doc) :
    List.Perm (sortDocs s l) l :=
  List.perm_insertionSort _ l

/-- C1 counterexample: `limit = 0` is falsy in Python (and means "no
limit" in pymongo), so the result is not bounded by the limit argument —
one document comes back although the limit is 0; and with equal
`created_at` values two documents come back in an order that is not
strictly descending. -/
theorem get_many_counterexample :
    get_documents [[("created_at", Value.vInt 1)]] (fun _ => true) [] 0 0
        (some [("created_at", -1)]) = .ok [[("created_at", Value.vInt 1)]] ∧
    ¬ ([[("created_at", Value.vInt 1)]] : List Doc).length ≤ 0 ∧
    get_documents [[("_id", Value.vStr "b"), ("created_at", Value.vInt 5)],
        [("_id", Value.vStr "c"), ("created_at", Value.vInt 5)]] (fun _ => true) [] 0 100
        (some [("created_at", -1)]) =
      .ok [[("_id", Value.vStr "b"), ("created_at", Value.vInt 5)],
        [("_id", Value.vStr "c"), ("created_at", Value.vInt 5)]] ∧
    getField [("_id", Value.vStr "b"), ("created_at", Value.vInt 5)] "created_at" =
      getField [("_id", Value.vStr "c"), ("created_at", Value.vInt 5)] "created_at" ∧
    createdAfterB [("_id", Value.vStr "b"), ("created_at", Value.vInt 5)]
      [("_id", Value.vStr "c"), ("created_at", Value.vInt 5)] = false :=
  ⟨rfl, by decide, rfl, rfl, rfl⟩

/-- C1 (amended): for every positive limit `n`, `get_many` with
`sort=[(created_at, desc)]` returns exactly the filtered collection
sorted, then offset by `k`, then capped at `n` — sort applied before
skip and limit — so the result holds at most `n` items for every
collection size (empty, fewer-than-`n`, exactly-`n` included), and it is
strictly descending in creation order whenever the documents carry
pairwise-distinct integer `created_at` values. -/
theorem get_many_pagination (coll : List Doc) (schema : Doc → Bool)
    (filt : List (String × Value)) (k n : Nat)
    (hn : 0 < n)
    (hschema : ∀ d ∈ coll, schema d = true) :
    get_documents coll schema filt k n (some [("created_at", -1)]) =
      .ok (((sortDocs [("created_at", -1)] (coll.filter (docMatches filt))).drop k).take n) ∧
    (((sortDocs [("created_at", -1)] (coll.filter (docMatches filt))).drop k).take n).length
      ≤ n ∧
    ((∀ d ∈ coll, ∃ x : Int, getField d "created_at" = some (Value.vInt x)) →
      coll.Pairwise (fun a b => getField a "created_at" ≠ getField b "created_at") →
      (((sortDocs [("created_at", -1)] (coll.filter (docMatches filt))).drop k).take n).Pairwise
        (fun a b => createdAfterB a b = true)) := by
  have hmemcoll : ∀ d ∈ sortDocs [("created_at", -1)] (coll.filter (docMatches filt)),
      d ∈ coll := by
    intro d hd
    exact List.mem_of_mem_filter ((perm_sortDocs _ _).mem_iff.1 hd)
  have hmem : ∀ d ∈ ((sortDocs [("created_at", -1)]
      (coll.filter (docMatches filt))).drop k).take n, d ∈ coll := by
    intro d hd
    exact hmemcoll d (List.mem_of_mem_drop (List.mem_of_mem_take hd))
  have hall : (((sortDocs [("created_at", -1)]
      (coll.filter (docMatches filt))).drop k).take n).all schema = true := by
    rw [List.all_eq_true]
    intro d hd
    exact hschema d (hmem d hd)
  refine ⟨?_, List.length_take_le n _, ?_⟩
  · rw [get_documents]
    have hknorm : (if k = 0 then sortDocs [("created_at", -1)] (coll.filter (docMatches filt))
        else (sortDocs [("created_at", -1)] (coll.filter (docMatches filt))).drop k)
          = (sortDocs [("created_at", -1)] (coll.filter (docMatches filt))).drop k := by
      by_cases hk : k = 0
      · rw [if_pos hk, hk, List.drop_zero]
      · rw [if_neg hk]
    simp only [hknorm, if_neg (by simp : ¬ ([("created_at", (-1 : Int))] = [])),
      if_neg (Nat.pos_iff_ne_zero.1 hn), hall, if_true]
  · intro hint hpw
    have hpwf : (coll.filter (docMatches filt)).Pairwise
        (fun a b => getField a "created_at" ≠ getField b "created_at") :=
      List.Pairwise.sublist (List.filter_sublist coll) hpw
    have hpws : (sortDocs [("created_at", -1)] (coll.filter (docMatches filt))).Pairwise
        (fun a b => getField a "created_at" ≠ getField b "created_at") :=
      ((perm_sortDocs _ _).pairwise_iff (fun h => Ne.symm h)).2 hpwf
    have hsorted : (sortDocs [("created_at", -1)] (coll.filter (docMatches filt))).Pairwise
        (fun a b => sortLe [("created_at", -1)] a b = true) :=
      sorted_sortDocs [("created_at", -1)] (coll.filter (docMatches filt))
    have hcomb := hsorted.and hpws
    have hstrict : (sortDocs [("created_at", -1)] (coll.filter (docMatches filt))).Pairwise
        (fun a b => createdAfterB a b = true) := by
      refine List.Pairwise.imp_of_mem ?_ hcomb
      intro a b ha hb hab
      obtain ⟨hr, hne⟩ := hab
      obtain ⟨x, hx⟩ := hint a (hmemcoll a ha)
      obtain ⟨y, hy⟩ := hint b (hmemcoll b hb)
      rw [sortLe, if_neg hne, dirLe, if_pos rfl, hx, hy] at hr
      rw [valLe] at hr
      have hxy : y ≤ x := by simpa using hr
      have hneq : x ≠ y := by
        intro hc
        exact hne (by rw [hx, hy, hc])
      rw [createdAfterB, hx, hy]
      simp only [decide_eq_true_eq]
      omega
    exact List.Pairwise.sublist
      (List.Sublist.trans (List.take_sublist n _) (List.drop_sublist k _)) hstrict

/-- C1 witness: two documents created at times 1 and 5, `skip = 1`,
`limit = 1`: the sorted order is [5, 1], the offset drops the newest, the
limit keeps one. -/
theorem get_many_pagination_witness :
    get_documents [[("created_at", Value.vInt 1)], [("created_at", Value.vInt 5)]]
        (fun _ => true) [] 1 1 (some [("created_at", -1)]) =
      .ok (((sortDocs [("created_at", -1)]
        (([[("created_at", Value.vInt 1)], [("created_at", Value.vInt 5)]] : List Doc).filter
          (docMatches []))).drop 1).take 1) ∧
    (((sortDocs [("created_at", -1)]
        (([[("created_at", Value.vInt 1)], [("created_at", Value.vInt 5)]] : List Doc).filter
          (docMatches []))).drop 1).take 1).length ≤ 1 ∧
    (((sortDocs [("created_at", -1)]
        (([[("created_at", Value.vInt 1)], [("created_at", Value.vInt 5)]] : List Doc).filter
          (docMatches []))).drop 1).take 1).Pairwise
      (fun a b => createdAfterB a b = true) := by
  have h := get_many_pagination
    [[("created_at", Value.vInt 1)], [("created_at", Value.vInt 5)]]
    (fun _ => true) [] 1 1 (by decide) (fun d _ => rfl)
  refine ⟨h.1, h.2.1, h.2.2 ?_ ?_⟩
  · intro d hd
    rcases List.mem_cons.1 hd with rfl | hd
    · exact ⟨1, rfl⟩
    · rcases List.mem_cons.1 hd with rfl | hd
      · exact ⟨5, rfl⟩
      · exact absurd hd (List.not_mem_nil d)
  · refine List.pairwise_cons.2 ⟨?_, List.pairwise_singleton _ _⟩
    intro b hb
    rcases List.mem_cons.1 hb with rfl | hb
    · decide
    · exact absurd hb (List.not_mem_nil b)

end RecruitDB
